import Mathlib

/-!
Shallow embedding of pkg/syncer/syncer.go from the imdb-trakt-sync
repository.  The remote IMDb and Trakt clients are modelled as pure
oracles (functions supplied as parameters), and the write operations the
syncer issues are recorded as a trace of calls.  The entities and client
packages are not part of the analysed sources; the few definitions taken
from them are modelled from the spec and marked as such.
-/

namespace ImdbTraktSync

/-- The media type tag of a synced item: movie, show or episode. -/
inductive TraktItemType
  | movie
  | tvshow
  | episode
deriving DecidableEq

/-- Cross-service identifiers of a Trakt media record (entities package,
modelled from its use in syncer.go: only the IMDb id is read). -/
structure TraktIds where
  Imdb : String := ""
deriving DecidableEq

/-- One typed media record inside a Trakt item (entities package, modelled
from its use in syncer.go: the update scan reads Ids.Imdb and writes
Rating and RatedAt). -/
structure TraktMedia where
  Ids : TraktIds := {}
  Rating : Option Int := none
  RatedAt : Option String := none
deriving DecidableEq

/-- A Trakt item as used by syncer.go: a type tag selecting one of the
three media records, and a top-level rating value.  The Go field Type is
renamed itemType (Type is a Lean keyword). -/
structure TraktItem where
  itemType : TraktItemType
  Rating : Int := 0
  Movie : TraktMedia := {}
  Show : TraktMedia := {}
  Episode : TraktMedia := {}
deriving DecidableEq

/-- The media record selected by the item's type tag: abstracts the
switch on traktItem.Type in syncer.go. -/
def TraktItem.media (t : TraktItem) : TraktMedia :=
  match t.itemType with
  | .movie => t.Movie
  | .tvshow => t.Show
  | .episode => t.Episode

/-- The cross-service key of a Trakt item: the IMDb id of the media
record selected by the type tag (the per-case Ids.Imdb reads in the
switch statements of syncer.go). -/
def TraktItem.imdbId (t : TraktItem) : String :=
  t.media.Ids.Imdb

/-- Writes the selected media record back into the item, leaving the
other two untouched (the per-case field assignments in syncer.go). -/
def TraktItem.setMedia (t : TraktItem) (m : TraktMedia) : TraktItem :=
  match t.itemType with
  | .movie => { t with Movie := m }
  | .tvshow => { t with Show := m }
  | .episode => { t with Episode := m }

/-- The stamping step of the rating-update scan (syncer.go lines 259-274):
sets the selected media record's Rating and RatedAt, leaving the
top-level Rating untouched. -/
def TraktItem.stampRating (t : TraktItem) (r : Int) (d : String) : TraktItem :=
  t.setMedia { t.media with Rating := some r, RatedAt := some d }

/-- An IMDb item (entities package; modelled from its use in syncer.go
plus the spec's Item description: a stable key, a type tag, an optional
rating value and a rating date).  The rating date is kept abstract as a
string. -/
structure ImdbItem where
  Id : String := ""
  itemType : TraktItemType := .movie
  Rating : Option Int := none
  RatingDate : String := ""
deriving DecidableEq

/-- A collection pairing (entities.DataPair; fields modelled from their
use in syncer.go). -/
structure DataPair where
  ImdbList : List ImdbItem := []
  ImdbListId : String := ""
  ImdbListName : String := ""
  TraktList : List TraktItem := []
  TraktListId : String := ""
  IsWatchlist : Bool := false
deriving DecidableEq

/-- Modelled from the spec: the conversion of a source item into the
mirror item shape used for additions (entities package, not under src/).
The key is carried into the slot selected by the type tag. -/
def ImdbItem.toTraktItem (i : ImdbItem) : TraktItem :=
  TraktItem.setMedia
    { itemType := i.itemType, Rating := (i.Rating.getD 0) }
    { Ids := { Imdb := i.Id }, Rating := i.Rating, RatedAt := none }

/-- The keys of a mirror-side collection. -/
def traktKeys (l : List TraktItem) : List String :=
  l.map TraktItem.imdbId

/-- The keys of a source-side collection. -/
def imdbKeys (l : List ImdbItem) : List String :=
  l.map ImdbItem.Id

/-- The diff result.  Go uses a map keyed by the string constants "add"
and "remove"; it is modelled as a two-field record. -/
structure DiffResult where
  add : List TraktItem := []
  remove : List TraktItem := []
deriving DecidableEq

/-- Modelled from the spec: entities.DataPair.Difference (not under
src/).  toAdd is the source items whose key is absent from the mirror
keys, converted to the mirror item shape; toRemove is the mirror items
whose key is absent from the source keys. -/
def DataPair.Difference (p : DataPair) : DiffResult :=
  { add := (p.ImdbList.filter
        (fun i => !(p.TraktList.any (fun t => t.imdbId == i.Id)))).map
        ImdbItem.toTraktItem
    remove := p.TraktList.filter
        (fun t => !(p.ImdbList.any (fun i => i.Id == t.imdbId))) }

/-- Modelled from the spec: entities.TraktItem.GetItemId (not under
src/) yields the item's cross-service identifier; a malformed record
that cannot yield one is a data-shape error. -/
def TraktItem.GetItemId (t : TraktItem) : Option String :=
  if t.imdbId == "" then none else some t.imdbId

/-- A structured remote error carrying a status code
(client.ApiError; modelled from its use in syncer.go). -/
structure ApiError where
  StatusCode : Nat := 0
  Message : String := ""
deriving DecidableEq

/-- A failure of the rating synchroniser: a remote error, or the
data-shape error of an item without a cross-service id. -/
inductive SyncError
  | apiError (e : ApiError)
  | itemIdError
deriving DecidableEq

/-- One mirror-side list as returned by the Trakt lists query
(client package; Name and Ids.Slug modelled from their use in
syncer.go). -/
structure TraktListIdsRec where
  Slug : String := ""
deriving DecidableEq

/-- A Trakt list descriptor: display name plus slug. -/
structure TraktListRec where
  Name : String := ""
  Ids : TraktListIdsRec := {}
deriving DecidableEq

/-- A write call issued against the mirror service.  The trace records
which operation was invoked with which payload. -/
inductive Call
  | watchlistItemsAdd (items : List TraktItem)
  | watchlistItemsRemove (items : List TraktItem)
  | listItemsAdd (listId : String) (items : List TraktItem)
  | listItemsRemove (listId : String) (items : List TraktItem)
  | listAdd (listId : String) (listName : String)
  | listRemove (slug : String)
  | ratingsAdd (items : List TraktItem)
  | ratingsRemove (items : List TraktItem)
  | historyAdd (items : List TraktItem)
  | historyRemove (items : List TraktItem)
deriving DecidableEq

/-- The remote read operations of both clients, modelled as pure
oracles.  Write operations are consulted through a separate oracle that
reports success or a remote error (see emitCalls). -/
structure Clients where
  imdbListItemsGet : String → Except ApiError (String × List ImdbItem)
  imdbListsScrape : Except ApiError (List DataPair)
  imdbWatchlistGet : Except ApiError (String × List ImdbItem)
  imdbRatingsGet : Except ApiError (List ImdbItem)
  traktWatchlistItemsGet : Except ApiError (List TraktItem)
  traktListItemsGet : String → Except ApiError (List TraktItem)
  traktListAdd : String → String → Option ApiError
  traktListsGet : Except ApiError (List TraktListRec)
  traktRatingsGet : Except ApiError (List TraktItem)
  historyGet : TraktItemType → String → Except ApiError (List Nat)

/-- The in-memory state assembled by hydration (the user struct of
syncer.go). -/
structure UserState where
  lists : List DataPair := []
  ratings : DataPair := {}

/-- Issues a sequence of write calls through the write oracle wok; the
first failing call aborts with its remote error, mirroring the fail-fast
returns of syncer.go.  On success the trace is the whole sequence. -/
def emitCalls (wok : Call → Option ApiError) : List Call → Except ApiError (List Call)
  | [] => .ok []
  | cl :: cls =>
    match wok cl with
    | some e => .error e
    | none => (emitCalls wok cls).map (fun tr => cl :: tr)

/-- The add/remove calls one list pairing produces (syncer.go lines
158-184): watchlist pairings use the watchlist operations, named lists
the list-scoped operations; a call is issued only for a non-empty side
of the diff. -/
def syncListsPairCalls (list : DataPair) : List Call :=
  let diff := list.Difference
  if list.IsWatchlist then
    (if diff.add.length > 0 then [Call.watchlistItemsAdd diff.add] else []) ++
      (if diff.remove.length > 0 then [Call.watchlistItemsRemove diff.remove] else [])
  else
    (if diff.add.length > 0 then [Call.listItemsAdd list.TraktListId diff.add] else []) ++
      (if diff.remove.length > 0 then [Call.listItemsRemove list.TraktListId diff.remove] else [])

/-- contains (syncer.go lines 343-350): whether some pairing's display
name equals the given Trakt list name. -/
def contains (dps : List DataPair) (traktListName : String) : Bool :=
  dps.any (fun dp => dp.ImdbListName == traktListName)

/-- The orphan-cleanup deletions (syncer.go lines 190-196): one
ListRemove per fetched Trakt list whose name matches no pairing's
display name. -/
def orphanDeleteCalls (pairings : List DataPair) (traktLists : List TraktListRec) : List Call :=
  (traktLists.filter (fun tl => !(contains pairings tl.Name))).map
    (fun tl => Call.listRemove tl.Ids.Slug)

/-- syncLists (syncer.go lines 158-198): per-pairing add/remove calls,
then the Trakt lists are fetched and orphans deleted.  Any failing write
or the lists fetch aborts the run. -/
def syncLists (wok : Call → Option ApiError) (c : Clients) (pairings : List DataPair) :
    Except ApiError (List Call) :=
  match emitCalls wok ((pairings.map syncListsPairCalls).flatten) with
  | .error e => .error e
  | .ok pairCalls =>
    match c.traktListsGet with
    | .error e => .error e
    | .ok traktLists =>
      (emitCalls wok (orphanDeleteCalls pairings traktLists)).map
        (fun delCalls => pairCalls ++ delCalls)

/-- The history filter of the ratings add path (syncer.go lines
206-220): an item whose history query returns a non-empty result is
skipped; a failing id extraction or history query aborts. -/
def historyToAdd (hist : TraktItemType → String → Except ApiError (List Nat)) :
    List TraktItem → Except SyncError (List TraktItem)
  | [] => .ok []
  | x :: xs =>
    match x.GetItemId with
    | none => .error .itemIdError
    | some id =>
      match hist x.itemType id with
      | .error e => .error (.apiError e)
      | .ok h =>
        if h.length > 0 then historyToAdd hist xs
        else (historyToAdd hist xs).map (fun b => x :: b)

/-- The history filter of the ratings remove path (syncer.go lines
231-245): an item whose history query returns an empty result is
skipped. -/
def historyToRemove (hist : TraktItemType → String → Except ApiError (List Nat)) :
    List TraktItem → Except SyncError (List TraktItem)
  | [] => .ok []
  | x :: xs =>
    match x.GetItemId with
    | none => .error .itemIdError
    | some id =>
      match hist x.itemType id with
      | .error e => .error (.apiError e)
      | .ok h =>
        if h.length == 0 then historyToRemove hist xs
        else (historyToRemove hist xs).map (fun b => x :: b)

/-- The ratings add block (syncer.go lines 202-226): when toAdd is
non-empty, one batched RatingsAdd, then the history filter, then one
batched HistoryAdd only when the history batch is non-empty. -/
def ratingsAddBlock (wok : Call → Option ApiError)
    (hist : TraktItemType → String → Except ApiError (List Nat))
    (add : List TraktItem) : Except SyncError (List Call) :=
  if add.length > 0 then
    match wok (Call.ratingsAdd add) with
    | some e => .error (.apiError e)
    | none =>
      match historyToAdd hist add with
      | .error e => .error e
      | .ok h =>
        if h.length > 0 then
          match wok (Call.historyAdd h) with
          | some e => .error (.apiError e)
          | none => .ok [Call.ratingsAdd add, Call.historyAdd h]
        else .ok [Call.ratingsAdd add]
  else .ok []

/-- The ratings remove block (syncer.go lines 227-251): when toRemove is
non-empty, one batched RatingsRemove, then the history filter, then one
batched HistoryRemove only when the history batch is non-empty. -/
def ratingsRemoveBlock (wok : Call → Option ApiError)
    (hist : TraktItemType → String → Except ApiError (List Nat))
    (remove : List TraktItem) : Except SyncError (List Call) :=
  if remove.length > 0 then
    match wok (Call.ratingsRemove remove) with
    | some e => .error (.apiError e)
    | none =>
      match historyToRemove hist remove with
      | .error e => .error e
      | .ok h =>
        if h.length > 0 then
          match wok (Call.historyRemove h) with
          | some e => .error (.apiError e)
          | none => .ok [Call.ratingsRemove remove, Call.historyRemove h]
        else .ok [Call.ratingsRemove remove]
  else .ok []

/-- The inner loop of the rating-update scan (syncer.go lines 255-277)
for one source item with rating value r: every mirror item of matching
type and key with a different top-level rating is stamped with r and the
UTC-normalised rating date and collected. -/
def updateMatches (utc : String → String) (i : ImdbItem) (r : Int) :
    List TraktItem → List TraktItem
  | [] => []
  | t :: ts =>
    if i.Id == t.imdbId && !(r == t.Rating) then
      t.stampRating r (utc i.RatingDate) :: updateMatches utc i r ts
    else updateMatches utc i r ts

/-- The rating-update scan (syncer.go lines 252-279): every source item
carrying a rating is matched against the whole mirror collection.  The
utc parameter stands for time.Time.UTC().String(), which lives outside
the analysed sources. -/
def ratingsToUpdate (utc : String → String) (src : List ImdbItem)
    (mir : List TraktItem) : List TraktItem :=
  match src with
  | [] => []
  | i :: is =>
    (match i.Rating with
      | some r => updateMatches utc i r mir
      | none => []) ++ ratingsToUpdate utc is mir

/-- syncRatings (syncer.go lines 200-286): the diff's add block, then
its remove block, then the update scan whose batch is pushed through one
RatingsAdd call when non-empty. -/
def syncRatings (wok : Call → Option ApiError)
    (hist : TraktItemType → String → Except ApiError (List Nat))
    (utc : String → String) (ratings : DataPair) : Except SyncError (List Call) :=
  let diff := ratings.Difference
  match ratingsAddBlock wok hist diff.add with
  | .error e => .error e
  | .ok ca =>
    match ratingsRemoveBlock wok hist diff.remove with
    | .error e => .error e
    | .ok cr =>
      let updates := ratingsToUpdate utc ratings.ImdbList ratings.TraktList
      if updates.length > 0 then
        match wok (Call.ratingsAdd updates) with
        | some e => .error (.apiError e)
        | none => .ok (ca ++ cr ++ [Call.ratingsAdd updates])
      else .ok (ca ++ cr)

/-- Modelled from the spec: client.FormatTraktListName (not under src/)
derives the mirror list id deterministically from the source list's
display name, as a lower-cased, dash-separated slug. -/
def FormatTraktListName (name : String) : String :=
  String.mk (name.data.map (fun ch => if ch == ' ' then '-' else ch.toLower))

/-- The pairing built for one found source list during cleanup
(syncer.go lines 307-312). -/
def mkCleanupPair (id name : String) (items : List ImdbItem) : DataPair :=
  { ImdbList := items
    ImdbListId := id
    ImdbListName := name
    TraktListId := FormatTraktListName name }

/-- The cleanup loop of cleanupLists (syncer.go lines 289-317), with the
seen-set of already-processed ids made explicit.  Returns the retained
pairings together with the trace of ids on which the source list fetch
was invoked.  A not-found response drops the id; any other error aborts. -/
def cleanupLoop (c : Clients) (seen : List String) :
    List DataPair → Except ApiError (List DataPair × List String)
  | [] => .ok ([], [])
  | l :: ls =>
    if l.ImdbListId ∈ seen then cleanupLoop c seen ls
    else
      match c.imdbListItemsGet l.ImdbListId with
      | .error e =>
        if e.StatusCode == 404 then
          (cleanupLoop c (l.ImdbListId :: seen) ls).map
            (fun r => (r.1, l.ImdbListId :: r.2))
        else .error e
      | .ok (name, items) =>
        (cleanupLoop c (l.ImdbListId :: seen) ls).map
          (fun r => (mkCleanupPair l.ImdbListId name items :: r.1, l.ImdbListId :: r.2))

/-- cleanupLists (syncer.go lines 289-317) starting from an empty seen
set. -/
def cleanupLists (c : Clients) (lists : List DataPair) :
    Except ApiError (List DataPair × List String) :=
  cleanupLoop c [] lists

/-- Reference form of the cleanup loop over a list of already-distinct
identifiers: fetch each id once in order, drop the not-found ones, fail
on any other error. -/
def cleanupDistinct (c : Clients) : List String → Except ApiError (List DataPair × List String)
  | [] => .ok ([], [])
  | id :: ids =>
    match c.imdbListItemsGet id with
    | .error e =>
      if e.StatusCode == 404 then
        (cleanupDistinct c ids).map (fun r => (r.1, id :: r.2))
      else .error e
    | .ok (name, items) =>
      (cleanupDistinct c ids).map
        (fun r => (mkCleanupPair id name items :: r.1, id :: r.2))

/-- First-occurrence-wins deduplication relative to a seen set. -/
def dedupFirstAux (seen : List String) : List String → List String
  | [] => []
  | x :: xs =>
    if x ∈ seen then dedupFirstAux seen xs
    else x :: dedupFirstAux (x :: seen) xs

/-- First-occurrence-wins deduplication of a list of identifiers. -/
def dedupFirst (l : List String) : List String :=
  dedupFirstAux [] l

/-- The pairing appended for the watchlist (syncer.go lines 112-117). -/
def watchlistPair (watchlistId : String) (imdbList : List ImdbItem) : DataPair :=
  { ImdbList := imdbList
    ImdbListId := watchlistId
    ImdbListName := "watchlist"
    IsWatchlist := true }

/-- The per-pairing mirror hydration step (syncer.go lines 118-142): the
watchlist pairing fetches the Trakt watchlist; a named pairing fetches
its Trakt list, and on a 404 creates the list (named from the source
display name) and proceeds with an empty mirror collection (the zero
value of the fetch result).  Any other fetch error, and any creation
error, aborts. -/
def hydratePairing (c : Clients) (p : DataPair) : Except ApiError (DataPair × List Call) :=
  if p.IsWatchlist then
    match c.traktWatchlistItemsGet with
    | .error e => .error e
    | .ok wl => .ok ({ p with TraktList := wl }, [])
  else
    match c.traktListItemsGet p.TraktListId with
    | .ok tl => .ok ({ p with TraktList := tl }, [])
    | .error e =>
      if e.StatusCode == 404 then
        match c.traktListAdd p.TraktListId p.ImdbListName with
        | some e2 => .error e2
        | none => .ok ({ p with TraktList := [] }, [Call.listAdd p.TraktListId p.ImdbListName])
      else .error e

/-- The hydration loop over all pairings (syncer.go lines 118-142). -/
def hydratePairings (c : Clients) :
    List DataPair → Except ApiError (List DataPair × List Call)
  | [] => .ok ([], [])
  | p :: ps =>
    match hydratePairing c p with
    | .error e => .error e
    | .ok (p2, cs) =>
      (hydratePairings c ps).map (fun r => (p2 :: r.1, cs ++ r.2))

/-- hydrate (syncer.go lines 96-156): explicit seed pairings go through
cleanup, an empty seed list triggers full discovery; the watchlist
pairing is appended last; every pairing is hydrated with its mirror
contents; finally both ratings collections are fetched. -/
def hydrate (c : Clients) (seedLists : List DataPair) : Except ApiError (UserState × List Call) :=
  match
    (if seedLists.length != 0 then (cleanupLists c seedLists).map Prod.fst
      else c.imdbListsScrape) with
  | .error e => .error e
  | .ok lists0 =>
    match c.imdbWatchlistGet with
    | .error e => .error e
    | .ok wl =>
      match hydratePairings c (lists0 ++ [watchlistPair wl.1 wl.2]) with
      | .error e => .error e
      | .ok hyd =>
        match c.imdbRatingsGet with
        | .error e => .error e
        | .ok imdbRatings =>
          match c.traktRatingsGet with
          | .error e => .error e
          | .ok traktRatings =>
            .ok ({ lists := hyd.1
                   ratings := { ImdbList := imdbRatings, TraktList := traktRatings } }, hyd.2)

/-- The environment variable keys of syncer.go lines 16-25. -/
def EnvVarKeyCookieAtMain : String := "IMDB_COOKIE_AT_MAIN"

/-- IMDb ubid-main cookie key. -/
def EnvVarKeyCookieUbidMain : String := "IMDB_COOKIE_UBID_MAIN"

/-- IMDb list ids key. -/
def EnvVarKeyListIds : String := "IMDB_LIST_IDS"

/-- IMDb user id key. -/
def EnvVarKeyUserId : String := "IMDB_USER_ID"

/-- Trakt client id key. -/
def EnvVarKeyClientId : String := "TRAKT_CLIENT_ID"

/-- Trakt client secret key. -/
def EnvVarKeyClientSecret : String := "TRAKT_CLIENT_SECRET"

/-- Trakt password key. -/
def EnvVarKeyPassword : String := "TRAKT_PASSWORD"

/-- Trakt username key. -/
def EnvVarKeyUsername : String := "TRAKT_USERNAME"

/-- The required environment variables (syncer.go lines 320-328). -/
def requiredEnvVarKeys : List String :=
  [EnvVarKeyListIds, EnvVarKeyCookieAtMain, EnvVarKeyCookieUbidMain,
    EnvVarKeyClientId, EnvVarKeyClientSecret, EnvVarKeyUsername, EnvVarKeyPassword]

/-- validateEnvVars (syncer.go lines 319-341) over an environment
modelled as a partial map: collects every missing required key and
returns them all at once, or nothing when none is missing. -/
def validateEnvVars (env : String → Option String) : Option (List String) :=
  let missing := requiredEnvVarKeys.filter (fun k => (env k).isNone)
  if missing.isEmpty then none else some missing

/-- Go strings.Split with separator "," over the characters of the
input (syncer.go line 73). -/
def splitComma : List Char → List (List Char)
  | [] => [[]]
  | ch :: cs =>
    if ch == ',' then [] :: splitComma cs
    else
      match splitComma cs with
      | [] => [[ch]]
      | r :: rs => (ch :: r) :: rs

/-- Go strings.ReplaceAll(s, " ", "") (syncer.go line 76): every space
character is removed. -/
def removeSpaces (cs : List Char) : List Char :=
  cs.filter (fun ch => !(ch == ' '))

/-- Rejoining the comma-separated chunks, used to state that splitComma
loses nothing. -/
def joinComma : List (List Char) → List Char
  | [] => []
  | [x] => x
  | x :: xs => x ++ ',' :: joinComma xs

/-- The list-id parsing of NewSyncer (syncer.go lines 72-79): an empty
or "all" input seeds nothing; otherwise the input is split on commas and
every space is removed from each identifier. -/
def parseListIds (s : String) : List String :=
  if s == "" || s == "all" then []
  else (splitComma s.data).map (fun cs => String.mk (removeSpaces cs))

/-- The explicit seed pairings NewSyncer builds (syncer.go lines 72-79):
one pairing per parsed identifier, carrying only the source list id. -/
def seedPairs (s : String) : List DataPair :=
  (parseListIds s).map (fun id => { ImdbListId := id })

/-- NewSyncer's configuration phase (syncer.go lines 39-81): validation
runs first and a failure aborts with the full list of missing inputs
before any client is constructed; otherwise the explicit seed pairings
are built from the list-ids input. -/
def newSyncerSeed (env : String → Option String) : Except (List String) (List DataPair) :=
  match validateEnvVars env with
  | some missing => .error missing
  | none => .ok (seedPairs ((env EnvVarKeyListIds).getD ""))

/-! Concrete fixtures used by the witness theorems. -/

/-- A source item rated 9 with key tt1. -/
def exImdbRated : ImdbItem :=
  { Id := "tt1", itemType := .movie, Rating := some 9, RatingDate := "d1" }

/-- A mirror item with key tt1 rated 8. -/
def exTraktRated : TraktItem :=
  { itemType := .movie, Rating := 8, Movie := { Ids := { Imdb := "tt1" } } }

/-- A ratings pairing with tt1 on both sides at different values. -/
def exRatingsBoth : DataPair :=
  { ImdbList := [exImdbRated], TraktList := [exTraktRated] }

/-- A ratings pairing with tt1 only on the source side. -/
def exRatingsSrcOnly : DataPair :=
  { ImdbList := [exImdbRated], TraktList := [] }

/-- A history oracle reporting no watch events. -/
def exHistEmpty : TraktItemType → String → Except ApiError (List Nat) := fun _ _ => .ok []

/-- A history oracle reporting one watch event for every item. -/
def exHistOne : TraktItemType → String → Except ApiError (List Nat) := fun _ _ => .ok [1]

/-- A write oracle on which every call succeeds. -/
def exWokOk : Call → Option ApiError := fun _ => none

/-- The identity stand-in for the UTC normalisation. -/
def exUtc : String → String := fun d => d

/-- A hydrated pairing named a. -/
def exPairA : DataPair := { ImdbListName := "a" }

/-- The hydrated watchlist pairing of the fixtures. -/
def exPairWl : DataPair := { ImdbListName := "watchlist", IsWatchlist := true }

/-- A mirror list named a. -/
def exTlA : TraktListRec := { Name := "a", Ids := { Slug := "a-slug" } }

/-- A mirror list named b, matching no pairing. -/
def exTlB : TraktListRec := { Name := "b", Ids := { Slug := "b-slug" } }

/-- A mirror list named watchlist. -/
def exTlWl : TraktListRec := { Name := "watchlist", Ids := { Slug := "watchlist" } }

/-- Clients whose reads all succeed with small fixed data. -/
def exClients : Clients :=
  { imdbListItemsGet := fun _ => .ok ("name", [])
    imdbListsScrape := .ok []
    imdbWatchlistGet := .ok ("wl", [])
    imdbRatingsGet := .ok []
    traktWatchlistItemsGet := .ok []
    traktListItemsGet := fun _ => .ok []
    traktListAdd := fun _ _ => none
    traktListsGet := .ok [exTlA, exTlB, exTlWl]
    traktRatingsGet := .ok []
    historyGet := fun _ _ => .ok [] }

/-- A non-watchlist pairing as it looks before mirror hydration. -/
def exPairSeed : DataPair :=
  { ImdbListId := "ls1", ImdbListName := "a", TraktListId := "a-slug" }

/-- A not-found remote error. -/
def exErr404 : ApiError := { StatusCode := 404 }

/-- A fatal remote error. -/
def exErr500 : ApiError := { StatusCode := 500 }

/-- Clients whose mirror list fetch always reports not-found. -/
def exClients404 : Clients :=
  { exClients with traktListItemsGet := fun _ => .error exErr404 }

/-- An environment lacking the list-ids and username inputs. -/
def exEnvMissing : String → Option String :=
  fun k => if k == "IMDB_LIST_IDS" || k == "TRAKT_USERNAME" then none else some "v"

/-- A fully populated environment whose list-ids input names two lists. -/
def exEnvFull : String → Option String :=
  fun k => if k == "IMDB_LIST_IDS" then some "ls1, ls2" else some "v"

/-- The state hydrated by the fixture clients from an empty seed list. -/
def exStateWl : UserState :=
  { lists := [watchlistPair "wl" []], ratings := { ImdbList := [], TraktList := [] } }

/-! Helper lemmas. -/

/-- The conversion of a source item keeps its type tag. -/
theorem toTraktItem_itemType (i : ImdbItem) : i.toTraktItem.itemType = i.itemType := by
  simp only [ImdbItem.toTraktItem, TraktItem.setMedia]
  cases h : i.itemType <;> simp [h]

/-- Writing a media record back and reading the selected one round-trips. -/
theorem media_setMedia (t : TraktItem) (m : TraktMedia) : (t.setMedia m).media = m := by
  cases h : t.itemType <;>
    simp [TraktItem.setMedia, TraktItem.media, h]

/-- The conversion of a source item carries its key. -/
theorem toTraktItem_imdbId (i : ImdbItem) : i.toTraktItem.imdbId = i.Id := by
  cases h : i.itemType <;>
    simp [ImdbItem.toTraktItem, TraktItem.imdbId, TraktItem.setMedia, TraktItem.media, h]

/-- Membership in the mirror-side key list. -/
theorem mem_traktKeys {l : List TraktItem} {k : String} :
    k ∈ traktKeys l ↔ ∃ t, t ∈ l ∧ t.imdbId = k := by
  simp [traktKeys, List.mem_map]

/-- Membership in the source-side key list. -/
theorem mem_imdbKeys {l : List ImdbItem} {k : String} :
    k ∈ imdbKeys l ↔ ∃ i, i ∈ l ∧ i.Id = k := by
  simp [imdbKeys, List.mem_map]

/-- Membership in the diff's toAdd side. -/
theorem mem_Difference_add {p : DataPair} {x : TraktItem} :
    x ∈ p.Difference.add ↔
      ∃ i, i ∈ p.ImdbList ∧ x = i.toTraktItem ∧ i.Id ∉ traktKeys p.TraktList := by
  simp only [DataPair.Difference, List.mem_map, List.mem_filter, Bool.not_eq_true',
    List.any_eq_false, beq_iff_eq, mem_traktKeys]
  constructor
  · rintro ⟨i, ⟨hi, hall⟩, rfl⟩
    exact ⟨i, hi, rfl, fun ⟨t, ht, hk⟩ => hall t ht hk⟩
  · rintro ⟨i, hi, rfl, hnk⟩
    exact ⟨i, ⟨hi, fun t ht hk => hnk ⟨t, ht, hk⟩⟩, rfl⟩

/-- Membership in the diff's toRemove side. -/
theorem mem_Difference_remove {p : DataPair} {y : TraktItem} :
    y ∈ p.Difference.remove ↔ y ∈ p.TraktList ∧ y.imdbId ∉ imdbKeys p.ImdbList := by
  simp only [DataPair.Difference, List.mem_filter, Bool.not_eq_true',
    List.any_eq_false, beq_iff_eq, mem_imdbKeys]
  constructor
  · rintro ⟨hy, hall⟩
    exact ⟨hy, fun ⟨i, hi, hk⟩ => hall i hi hk⟩
  · rintro ⟨hy, hnk⟩
    exact ⟨hy, fun i hi hk => hnk ⟨i, hi, hk⟩⟩

/-- C1: the diff used by list and rating reconciliation is the
symmetric difference by item key: toAdd is exactly the source items
whose key is absent from the mirror keys, toRemove exactly the mirror
items whose key is absent from the source keys, the two sides are
disjoint by key, and an item whose key appears on both sides occurs in
neither. -/
theorem claim_C1_diff_symmetric (p : DataPair) :
    (∀ x, x ∈ p.Difference.add ↔
        ∃ i, i ∈ p.ImdbList ∧ x = i.toTraktItem ∧ i.Id ∉ traktKeys p.TraktList)
    ∧ (∀ y, y ∈ p.Difference.remove ↔ y ∈ p.TraktList ∧ y.imdbId ∉ imdbKeys p.ImdbList)
    ∧ (∀ x ∈ p.Difference.add, ∀ y ∈ p.Difference.remove, x.imdbId ≠ y.imdbId)
    ∧ (∀ k, k ∈ imdbKeys p.ImdbList → k ∈ traktKeys p.TraktList →
        (∀ x ∈ p.Difference.add, x.imdbId ≠ k) ∧ ∀ y ∈ p.Difference.remove, y.imdbId ≠ k) := by
  refine ⟨fun x => mem_Difference_add, fun y => mem_Difference_remove, ?_, ?_⟩
  · intro x hx y hy heq
    obtain ⟨i, _, rfl, hnk⟩ := mem_Difference_add.mp hx
    obtain ⟨hyl, _⟩ := mem_Difference_remove.mp hy
    rw [toTraktItem_imdbId] at heq
    exact hnk (mem_traktKeys.mpr ⟨y, hyl, heq.symm⟩)
  · intro k hks hkm
    constructor
    · intro x hx heq
      obtain ⟨i, _, rfl, hnk⟩ := mem_Difference_add.mp hx
      rw [toTraktItem_imdbId] at heq
      exact hnk (heq ▸ hkm)
    · intro y hy heq
      obtain ⟨_, hnk⟩ := mem_Difference_remove.mp hy
      exact hnk (heq ▸ hks)

/-- The last element of a list with a singleton appended. -/
theorem getLast_append_single {α : Type} (l : List α) (a : α) :
    (l ++ [a]).getLast? = some a := by
  induction l with
  | nil => rfl
  | cons b bs ih =>
    rw [List.cons_append]
    simp [List.getLast?_cons, ih]

/-- Stamping sets the selected media record's rating and timestamp. -/
theorem stampRating_media (t : TraktItem) (r : Int) (d : String) :
    (t.stampRating r d).media = { t.media with Rating := some r, RatedAt := some d } := by
  exact media_setMedia t _

/-- A mirror item of matching key and differing top-level rating is
stamped and collected by the inner update scan. -/
theorem stamp_mem_updateMatches (utc : String → String) (i : ImdbItem) (r : Int)
    {t : TraktItem} {ts : List TraktItem} (ht : t ∈ ts) (hk : i.Id = t.imdbId)
    (hne : r ≠ t.Rating) :
    t.stampRating r (utc i.RatingDate) ∈ updateMatches utc i r ts := by
  induction ts with
  | nil => cases ht
  | cons a as ih =>
    rcases List.mem_cons.mp ht with rfl | hmem
    · simp only [updateMatches]
      split
      · exact List.mem_cons_self _ _
      · rename_i hcond
        simp [hk, hne] at hcond
    · simp only [updateMatches]
      split
      · exact List.mem_cons_of_mem _ (ih hmem)
      · exact ih hmem

/-- Collected inner-scan items appear in the full update scan. -/
theorem mem_ratingsToUpdate_of (utc : String → String) {src : List ImdbItem}
    {mir : List TraktItem} {i : ImdbItem} {r : Int} {x : TraktItem}
    (hi : i ∈ src) (hr : i.Rating = some r) (hx : x ∈ updateMatches utc i r mir) :
    x ∈ ratingsToUpdate utc src mir := by
  induction src with
  | nil => cases hi
  | cons a as ih =>
    rcases List.mem_cons.mp hi with rfl | hmem
    · simp only [ratingsToUpdate, hr, List.mem_append]
      exact Or.inl hx
    · simp only [ratingsToUpdate, List.mem_append]
      exact Or.inr (ih hmem)

/-- Successful rating synchronisation decomposes into the add block,
the remove block and, when the update scan collected anything, one final
batched rating-add call carrying the update batch. -/
theorem syncRatings_ok_decomp {wok : Call → Option ApiError}
    {hist : TraktItemType → String → Except ApiError (List Nat)}
    {utc : String → String} {p : DataPair} {calls : List Call}
    (h : syncRatings wok hist utc p = .ok calls) :
    ∃ ca cr,
      ratingsAddBlock wok hist p.Difference.add = .ok ca
      ∧ ratingsRemoveBlock wok hist p.Difference.remove = .ok cr
      ∧ ((ratingsToUpdate utc p.ImdbList p.TraktList ≠ []
            ∧ calls = ca ++ cr ++ [Call.ratingsAdd (ratingsToUpdate utc p.ImdbList p.TraktList)])
          ∨ (ratingsToUpdate utc p.ImdbList p.TraktList = [] ∧ calls = ca ++ cr)) := by
  simp only [syncRatings] at h
  split at h
  · exact absurd h (by simp)
  · rename_i ca hca
    split at h
    · exact absurd h (by simp)
    · rename_i cr hcr
      refine ⟨ca, cr, hca, hcr, ?_⟩
      split at h
      · rename_i hlen
        split at h
        · exact absurd h (by simp)
        · cases h
          exact Or.inl ⟨List.length_pos.mp hlen, rfl⟩
      · rename_i hlen
        cases h
        have : ratingsToUpdate utc p.ImdbList p.TraktList = [] :=
          List.length_eq_zero.mp (Nat.eq_zero_of_not_pos hlen)
        exact Or.inr ⟨this, rfl⟩

/-- C2: an item whose key is present on both ratings sides with a
differing rating value is never placed in toAdd or toRemove; the mirror
item is stamped with the source's rating value and UTC-normalised rating
date, collected by the update scan, and the whole update batch is issued
as the single batched rating-add call closing a successful run. -/
theorem claim_C2_rating_update
    (wok : Call → Option ApiError) (hist : TraktItemType → String → Except ApiError (List Nat))
    (utc : String → String) (p : DataPair) (i : ImdbItem) (t : TraktItem) (r : Int)
    (calls : List Call) (hi : i ∈ p.ImdbList) (ht : t ∈ p.TraktList)
    (hr : i.Rating = some r) (hk : i.Id = t.imdbId) (hne : r ≠ t.Rating)
    (hok : syncRatings wok hist utc p = .ok calls) :
    (∀ x ∈ p.Difference.add, x.imdbId ≠ i.Id)
    ∧ (∀ y ∈ p.Difference.remove, y.imdbId ≠ i.Id)
    ∧ t.stampRating r (utc i.RatingDate) ∈ ratingsToUpdate utc p.ImdbList p.TraktList
    ∧ (t.stampRating r (utc i.RatingDate)).media.Rating = some r
    ∧ (t.stampRating r (utc i.RatingDate)).media.RatedAt = some (utc i.RatingDate)
    ∧ calls.getLast? = some (Call.ratingsAdd (ratingsToUpdate utc p.ImdbList p.TraktList)) := by
  have hkeyM : i.Id ∈ traktKeys p.TraktList := mem_traktKeys.mpr ⟨t, ht, hk.symm⟩
  have hkeyS : i.Id ∈ imdbKeys p.ImdbList := mem_imdbKeys.mpr ⟨i, hi, rfl⟩
  have hmem : t.stampRating r (utc i.RatingDate) ∈ ratingsToUpdate utc p.ImdbList p.TraktList :=
    mem_ratingsToUpdate_of utc hi hr (stamp_mem_updateMatches utc i r ht hk hne)
  refine ⟨?_, ?_, hmem, ?_, ?_, ?_⟩
  · intro x hx heq
    obtain ⟨j, _, rfl, hnk⟩ := mem_Difference_add.mp hx
    rw [toTraktItem_imdbId] at heq
    exact hnk (heq ▸ hkeyM)
  · intro y hy heq
    obtain ⟨_, hnk⟩ := mem_Difference_remove.mp hy
    exact hnk (heq ▸ hkeyS)
  · rw [stampRating_media]
  · rw [stampRating_media]
  · obtain ⟨ca, cr, _, _, hcase⟩ := syncRatings_ok_decomp hok
    rcases hcase with ⟨_, rfl⟩ | ⟨hnil, _⟩
    · exact getLast_append_single _ _
    · exact absurd hnil (List.ne_nil_of_mem hmem)

/-- C2 witness: the tt1 pairing with ratings 9 and 8 on the two sides,
run with trivially succeeding oracles. -/
theorem claim_C2_rating_update_witness :
    (∀ x ∈ exRatingsBoth.Difference.add, x.imdbId ≠ exImdbRated.Id)
    ∧ (∀ y ∈ exRatingsBoth.Difference.remove, y.imdbId ≠ exImdbRated.Id)
    ∧ exTraktRated.stampRating 9 (exUtc exImdbRated.RatingDate)
        ∈ ratingsToUpdate exUtc exRatingsBoth.ImdbList exRatingsBoth.TraktList
    ∧ (exTraktRated.stampRating 9 (exUtc exImdbRated.RatingDate)).media.Rating = some 9
    ∧ (exTraktRated.stampRating 9 (exUtc exImdbRated.RatingDate)).media.RatedAt
        = some (exUtc exImdbRated.RatingDate)
    ∧ ([Call.ratingsAdd [exTraktRated.stampRating 9 "d1"]] : List Call).getLast?
        = some (Call.ratingsAdd (ratingsToUpdate exUtc exRatingsBoth.ImdbList exRatingsBoth.TraktList)) :=
  claim_C2_rating_update exWokOk exHistEmpty exUtc exRatingsBoth exImdbRated exTraktRated 9
    [Call.ratingsAdd [exTraktRated.stampRating 9 "d1"]]
    (by decide) (by decide) (by decide) (by decide) (by decide) (by rfl)

/-- An item kept by the add-path history filter was in the input and its
history query returned the empty result. -/
theorem historyToAdd_mem {hist : TraktItemType → String → Except ApiError (List Nat)}
    {l b : List TraktItem} {y : TraktItem}
    (h : historyToAdd hist l = .ok b) (hy : y ∈ b) :
    y ∈ l ∧ ∃ id, y.GetItemId = some id ∧ hist y.itemType id = .ok [] := by
  induction l generalizing b with
  | nil => cases h; cases hy
  | cons x xs ih =>
    simp only [historyToAdd] at h
    split at h
    · exact absurd h (by simp)
    · rename_i id hid
      split at h
      · exact absurd h (by simp)
      · rename_i hh hhist
        split at h
        · obtain ⟨hyl, hrest⟩ := ih h hy
          exact ⟨List.mem_cons_of_mem _ hyl, hrest⟩
        · rename_i hlen
          cases hb2 : historyToAdd hist xs with
          | error e => rw [hb2] at h; exact absurd h (by simp [Except.map])
          | ok b2 =>
            rw [hb2] at h
            simp only [Except.map, Except.ok.injEq] at h
            subst h
            rcases List.mem_cons.mp hy with rfl | hmem
            · have hnil : hh = [] := by
                cases hh with
                | nil => rfl
                | cons a as => exact absurd (by simp) hlen
              exact ⟨List.mem_cons_self _ _, id, hid, hnil ▸ hhist⟩
            · obtain ⟨hyl, hrest⟩ := ih hb2 hmem
              exact ⟨List.mem_cons_of_mem _ hyl, hrest⟩

/-- A history-add call emitted by the ratings add block carries exactly
the non-empty batch produced by the history filter. -/
theorem ratingsAddBlock_historyAdd {wok : Call → Option ApiError}
    {hist : TraktItemType → String → Except ApiError (List Nat)}
    {add : List TraktItem} {ca : List Call} {items : List TraktItem}
    (h : ratingsAddBlock wok hist add = .ok ca) (hm : Call.historyAdd items ∈ ca) :
    historyToAdd hist add = .ok items ∧ items ≠ [] := by
  simp only [ratingsAddBlock] at h
  split at h
  · split at h
    · exact absurd h (by simp)
    · split at h
      · exact absurd h (by simp)
      · rename_i hb hba
        split at h
        · rename_i hlen
          split at h
          · exact absurd h (by simp)
          · cases h
            rcases List.mem_cons.mp hm with heq | hm2
            · cases heq
            · rcases List.mem_cons.mp hm2 with heq | hm3
              · cases heq
                refine ⟨hba, ?_⟩
                intro hnil
                rw [hnil] at hlen
                exact absurd hlen (by simp)
              · cases hm3
        · cases h
          rcases List.mem_cons.mp hm with heq | hm2
          · cases heq
          · cases hm2
  · cases h
    cases hm

/-- The ratings remove block never emits a history-add call. -/
theorem ratingsRemoveBlock_no_historyAdd {wok : Call → Option ApiError}
    {hist : TraktItemType → String → Except ApiError (List Nat)}
    {remove : List TraktItem} {cr : List Call}
    (h : ratingsRemoveBlock wok hist remove = .ok cr) :
    ∀ items, Call.historyAdd items ∉ cr := by
  intro items hm
  simp only [ratingsRemoveBlock] at h
  split at h
  · split at h
    · exact absurd h (by simp)
    · split at h
      · exact absurd h (by simp)
      · split at h
        · split at h
          · exact absurd h (by simp)
          · cases h
            rcases List.mem_cons.mp hm with heq | hm2
            · cases heq
            · rcases List.mem_cons.mp hm2 with heq | hm3
              · cases heq
              · cases hm3
        · cases h
          rcases List.mem_cons.mp hm with heq | hm2
          · cases heq
          · cases hm2
  · cases h
    cases hm

/-- C3: an item of the ratings toAdd set whose mirror watch-history
query returns a non-empty result never appears in a history-add batch,
and every issued history-add call carries a non-empty batch. -/
theorem claim_C3_history_dedup
    (wok : Call → Option ApiError) (hist : TraktItemType → String → Except ApiError (List Nat))
    (utc : String → String) (p : DataPair) (calls : List Call)
    (x : TraktItem) (id : String) (h : List Nat)
    (hok : syncRatings wok hist utc p = .ok calls)
    (hx : x ∈ p.Difference.add) (hid : x.GetItemId = some id)
    (hh : hist x.itemType id = .ok h) (hne : h ≠ []) :
    (∀ items, Call.historyAdd items ∈ calls → x ∉ items)
    ∧ (∀ items, Call.historyAdd items ∈ calls → items ≠ []) := by
  obtain ⟨ca, cr, hca, hcr, hcase⟩ := syncRatings_ok_decomp hok
  have hsplit : ∀ items, Call.historyAdd items ∈ calls → Call.historyAdd items ∈ ca := by
    intro items hm
    have hmm : Call.historyAdd items ∈ ca ++ cr := by
      rcases hcase with ⟨_, rfl⟩ | ⟨_, rfl⟩
      · rcases List.mem_append.mp hm with hml | hmr
        · exact hml
        · rcases List.mem_cons.mp hmr with heq | hm2
          · cases heq
          · cases hm2
      · exact hm
    rcases List.mem_append.mp hmm with hml | hmr
    · exact hml
    · exact absurd hmr (ratingsRemoveBlock_no_historyAdd hcr items)
  constructor
  · intro items hm hxin
    obtain ⟨hb, _⟩ := ratingsAddBlock_historyAdd hca (hsplit items hm)
    obtain ⟨_, yid, hyid, hyok⟩ := historyToAdd_mem hb hxin
    rw [hid] at hyid
    cases hyid
    rw [hh] at hyok
    cases hyok
    exact hne rfl
  · intro items hm
    exact (ratingsAddBlock_historyAdd hca (hsplit items hm)).2

/-- C3 witness: a rating added for tt1 while the mirror history already
holds a watch event; the run issues no history-add call at all. -/
theorem claim_C3_history_dedup_witness :
    (∀ items, Call.historyAdd items ∈ [Call.ratingsAdd [exImdbRated.toTraktItem]] →
        exImdbRated.toTraktItem ∉ items)
    ∧ (∀ items, Call.historyAdd items ∈ [Call.ratingsAdd [exImdbRated.toTraktItem]] →
        items ≠ []) :=
  claim_C3_history_dedup exWokOk exHistOne exUtc exRatingsSrcOnly
    [Call.ratingsAdd [exImdbRated.toTraktItem]] exImdbRated.toTraktItem "tt1" [1]
    (by rfl) (by decide) (by decide) (by rfl) (by decide)

/-- A successful emission returns exactly the requested call sequence. -/
theorem emitCalls_ok {wok : Call → Option ApiError} {l tr : List Call}
    (h : emitCalls wok l = .ok tr) : tr = l := by
  induction l generalizing tr with
  | nil => cases h; rfl
  | cons cl cls ih =>
    simp only [emitCalls] at h
    split at h
    · exact absurd h (by simp)
    · cases hrec : emitCalls wok cls with
      | error e => rw [hrec] at h; exact absurd h (by simp [Except.map])
      | ok tr2 =>
        rw [hrec] at h
        simp only [Except.map, Except.ok.injEq] at h
        subst h
        rw [ih hrec]

/-- A successful list reconciliation run consists of the per-pairing
calls followed by the orphan deletions computed from the fetched mirror
lists. -/
theorem syncLists_ok_decomp {wok : Call → Option ApiError} {c : Clients}
    {pairings : List DataPair} {calls : List Call}
    (h : syncLists wok c pairings = .ok calls) :
    ∃ traktLists, c.traktListsGet = .ok traktLists
      ∧ calls = (pairings.map syncListsPairCalls).flatten
          ++ orphanDeleteCalls pairings traktLists := by
  simp only [syncLists] at h
  split at h
  · exact absurd h (by simp)
  · rename_i pairCalls hpc
    split at h
    · exact absurd h (by simp)
    · rename_i tls htl
      cases hrec : emitCalls wok (orphanDeleteCalls pairings tls) with
      | error e => rw [hrec] at h; exact absurd h (by simp [Except.map])
      | ok dels =>
        rw [hrec] at h
        simp only [Except.map, Except.ok.injEq] at h
        subst h
        exact ⟨tls, htl, by rw [emitCalls_ok hpc, emitCalls_ok hrec]⟩

/-- The per-pairing phase of list reconciliation never deletes a list. -/
theorem syncListsPairCalls_no_listRemove (l : DataPair) (s : String) :
    Call.listRemove s ∉ syncListsPairCalls l := by
  intro hm
  simp only [syncListsPairCalls] at hm
  split at hm <;>
    rcases List.mem_append.mp hm with h1 | h1 <;>
      (split at h1 <;> simp at h1)

/-- Membership of a deletion in the orphan-cleanup calls. -/
theorem mem_orphanDeleteCalls {pairings : List DataPair}
    {traktLists : List TraktListRec} {s : String} :
    Call.listRemove s ∈ orphanDeleteCalls pairings traktLists ↔
      ∃ tl, tl ∈ traktLists ∧ tl.Ids.Slug = s ∧ contains pairings tl.Name = false := by
  simp only [orphanDeleteCalls, List.mem_map, List.mem_filter, Bool.not_eq_true',
    Call.listRemove.injEq]
  constructor
  · rintro ⟨tl, ⟨htl, horph⟩, hs⟩
    exact ⟨tl, htl, hs, horph⟩
  · rintro ⟨tl, htl, hs, horph⟩
    exact ⟨tl, ⟨htl, horph⟩, hs⟩

/-- With pairwise-distinct slugs, a matched mirror list is never among
the orphan deletions. -/
theorem matched_not_deleted {pairings : List DataPair} {traktLists : List TraktListRec}
    {tl : TraktListRec}
    (hslug : (traktLists.map (fun l2 => l2.Ids.Slug)).Nodup)
    (htl : tl ∈ traktLists) (hmatch : contains pairings tl.Name = true) :
    Call.listRemove tl.Ids.Slug ∉ orphanDeleteCalls pairings traktLists := by
  intro hm
  obtain ⟨tl2, htl2, hs, horph⟩ := mem_orphanDeleteCalls.mp hm
  have heq : tl2 = tl := List.inj_on_of_nodup_map hslug htl2 htl hs
  subst heq
  rw [hmatch] at horph
  cases horph

/-- With pairwise-distinct slugs, an orphaned mirror list is deleted
exactly once by the orphan-cleanup calls. -/
theorem orphan_deleted_once {pairings : List DataPair} {traktLists : List TraktListRec}
    {tl : TraktListRec}
    (hslug : (traktLists.map (fun l2 => l2.Ids.Slug)).Nodup)
    (htl : tl ∈ traktLists) (horph : contains pairings tl.Name = false) :
    (orphanDeleteCalls pairings traktLists).count (Call.listRemove tl.Ids.Slug) = 1 := by
  have hinj : Function.Injective (fun s : String => Call.listRemove s) := by
    intro a b hab
    cases hab
    rfl
  have hnd : (traktLists.map (fun l2 => Call.listRemove l2.Ids.Slug)).Nodup := by
    have := hslug.map hinj
    rwa [List.map_map] at this
  have hsub : List.Sublist
      ((traktLists.filter (fun l2 => !(contains pairings l2.Name))).map
        (fun l2 => Call.listRemove l2.Ids.Slug))
      (traktLists.map (fun l2 => Call.listRemove l2.Ids.Slug)) :=
    (List.filter_sublist traktLists).map _
  have hndf : ((traktLists.filter (fun l2 => !(contains pairings l2.Name))).map
      (fun l2 => Call.listRemove l2.Ids.Slug)).Nodup := hnd.sublist hsub
  have hmemf : tl ∈ traktLists.filter (fun l2 => !(contains pairings l2.Name)) :=
    List.mem_filter.mpr ⟨htl, by simp [horph]⟩
  have hmem : Call.listRemove tl.Ids.Slug
      ∈ (traktLists.filter (fun l2 => !(contains pairings l2.Name))).map
        (fun l2 => Call.listRemove l2.Ids.Slug) :=
    List.mem_map.mpr ⟨tl, hmemf, rfl⟩
  exact List.count_eq_one_of_mem hndf hmem

/-- C4: after per-pairing processing, list reconciliation deletes
exactly the fetched mirror lists whose display name matches no pairing;
a matched list is never deleted, an orphan is deleted exactly once, and
a list named watchlist is protected whenever some pairing bears that
name. -/
theorem claim_C4_orphan_cleanup
    (wok : Call → Option ApiError) (c : Clients) (pairings : List DataPair)
    (traktLists : List TraktListRec) (calls : List Call)
    (hok : syncLists wok c pairings = .ok calls)
    (hget : c.traktListsGet = .ok traktLists)
    (hslug : (traktLists.map (fun tl => tl.Ids.Slug)).Nodup) :
    (∀ s, Call.listRemove s ∈ calls ↔
        ∃ tl, tl ∈ traktLists ∧ tl.Ids.Slug = s ∧ contains pairings tl.Name = false)
    ∧ (∀ tl ∈ traktLists, contains pairings tl.Name = true →
        Call.listRemove tl.Ids.Slug ∉ calls)
    ∧ (∀ tl ∈ traktLists, contains pairings tl.Name = false →
        calls.count (Call.listRemove tl.Ids.Slug) = 1)
    ∧ (contains pairings "watchlist" = true → ∀ tl ∈ traktLists, tl.Name = "watchlist" →
        Call.listRemove tl.Ids.Slug ∉ calls) := by
  obtain ⟨tls, hget2, rfl⟩ := syncLists_ok_decomp hok
  rw [hget] at hget2
  cases hget2
  have hflat : ∀ s, Call.listRemove s ∉ (pairings.map syncListsPairCalls).flatten := by
    intro s hm
    obtain ⟨lc, hlc, hmem⟩ := List.mem_flatten.mp hm
    obtain ⟨l, _, rfl⟩ := List.mem_map.mp hlc
    exact syncListsPairCalls_no_listRemove l s hmem
  have hiff : ∀ s, Call.listRemove s ∈
      (pairings.map syncListsPairCalls).flatten ++ orphanDeleteCalls pairings traktLists ↔
      ∃ tl, tl ∈ traktLists ∧ tl.Ids.Slug = s ∧ contains pairings tl.Name = false := by
    intro s
    rw [List.mem_append]
    constructor
    · rintro (hml | hmr)
      · exact absurd hml (hflat s)
      · exact mem_orphanDeleteCalls.mp hmr
    · intro hx
      exact Or.inr (mem_orphanDeleteCalls.mpr hx)
  refine ⟨hiff, ?_, ?_, ?_⟩
  · intro tl htl hmatch hm
    rcases List.mem_append.mp hm with hml | hmr
    · exact hflat _ hml
    · exact matched_not_deleted hslug htl hmatch hmr
  · intro tl htl horph
    rw [List.count_append]
    rw [List.count_eq_zero.mpr (hflat tl.Ids.Slug), orphan_deleted_once hslug htl horph]
  · intro hw tl htl hname hm
    rcases List.mem_append.mp hm with hml | hmr
    · exact hflat _ hml
    · exact matched_not_deleted hslug htl (hname ▸ hw) hmr

/-- C4 witness: of the mirror lists a, b and watchlist against pairings
named a and watchlist, exactly the list b is deleted. -/
theorem claim_C4_orphan_cleanup_witness :
    Call.listRemove exTlB.Ids.Slug ∈ [Call.listRemove "b-slug"]
    ∧ Call.listRemove exTlA.Ids.Slug ∉ [Call.listRemove "b-slug"]
    ∧ Call.listRemove exTlWl.Ids.Slug ∉ [Call.listRemove "b-slug"]
    ∧ ([Call.listRemove "b-slug"] : List Call).count (Call.listRemove exTlB.Ids.Slug) = 1 := by
  have h := claim_C4_orphan_cleanup exWokOk exClients [exPairA, exPairWl]
    [exTlA, exTlB, exTlWl] [Call.listRemove "b-slug"] (by rfl) (by rfl) (by decide)
  refine ⟨?_, ?_, ?_, ?_⟩
  · exact (h.1 "b-slug").mpr ⟨exTlB, by decide, rfl, by decide⟩
  · exact h.2.1 exTlA (by decide) (by decide)
  · exact h.2.2.2 (by decide) exTlWl (by decide) rfl
  · exact h.2.2.1 exTlB (by decide) (by decide)

/-- C5: a not-found mirror fetch during hydration of a non-watchlist
pairing creates the mirror list named from the source display name and
proceeds with an empty mirror collection; a failing creation call, and
any non-404 fetch error, abort instead. -/
theorem claim_C5_notfound_recovery
    (c : Clients) (p : DataPair) (e : ApiError)
    (hw : p.IsWatchlist = false)
    (herr : c.traktListItemsGet p.TraktListId = .error e) :
    (e.StatusCode = 404 → c.traktListAdd p.TraktListId p.ImdbListName = none →
        hydratePairing c p
          = .ok ({ p with TraktList := [] }, [Call.listAdd p.TraktListId p.ImdbListName]))
    ∧ (e.StatusCode = 404 → ∀ e2, c.traktListAdd p.TraktListId p.ImdbListName = some e2 →
        hydratePairing c p = .error e2)
    ∧ (e.StatusCode ≠ 404 → hydratePairing c p = .error e) := by
  refine ⟨?_, ?_, ?_⟩
  · intro h404 hadd
    simp [hydratePairing, hw, herr, hadd, h404]
  · intro h404 e2 hadd
    simp [hydratePairing, hw, herr, hadd, h404]
  · intro hne
    simp [hydratePairing, hw, herr, hne]

/-- C5 witness: hydrating the pairing a against clients whose mirror
fetch reports not-found creates the list and yields the empty mirror
collection. -/
theorem claim_C5_notfound_recovery_witness :
    (exErr404.StatusCode = 404 →
        exClients404.traktListAdd exPairSeed.TraktListId exPairSeed.ImdbListName = none →
        hydratePairing exClients404 exPairSeed
          = .ok ({ exPairSeed with TraktList := [] },
              [Call.listAdd exPairSeed.TraktListId exPairSeed.ImdbListName]))
    ∧ (exErr404.StatusCode = 404 →
        ∀ e2, exClients404.traktListAdd exPairSeed.TraktListId exPairSeed.ImdbListName = some e2 →
        hydratePairing exClients404 exPairSeed = .error e2)
    ∧ (exErr404.StatusCode ≠ 404 → hydratePairing exClients404 exPairSeed = .error exErr404) :=
  claim_C5_notfound_recovery exClients404 exPairSeed exErr404 (by rfl) (by rfl)

/-- The cleanup loop over seed pairings equals the simple loop over the
first-occurrence-deduplicated identifiers: duplicates are dropped before
any fetch happens. -/
theorem cleanupLoop_eq_distinct (c : Clients) (seen : List String) (ls : List DataPair) :
    cleanupLoop c seen ls
      = cleanupDistinct c (dedupFirstAux seen (ls.map DataPair.ImdbListId)) := by
  induction ls generalizing seen with
  | nil => rfl
  | cons l ls ih =>
    simp only [List.map_cons, cleanupLoop, dedupFirstAux]
    by_cases hc : l.ImdbListId ∈ seen
    · rw [if_pos hc, if_pos hc, ih]
    · rw [if_neg hc, if_neg hc]
      simp only [cleanupDistinct]
      rw [ih]

/-- First-wins deduplication yields a duplicate-free list disjoint from
the seen set. -/
theorem dedupFirstAux_nodup_disjoint (seen l : List String) :
    (dedupFirstAux seen l).Nodup ∧ ∀ x ∈ dedupFirstAux seen l, x ∉ seen := by
  induction l generalizing seen with
  | nil => exact ⟨List.nodup_nil, fun x hx => absurd hx (List.not_mem_nil x)⟩
  | cons a as ih =>
    simp only [dedupFirstAux]
    by_cases hc : a ∈ seen
    · rw [if_pos hc]
      exact ih seen
    · rw [if_neg hc]
      obtain ⟨hnd, hdisj⟩ := ih (a :: seen)
      refine ⟨List.nodup_cons.mpr ⟨?_, hnd⟩, ?_⟩
      · intro hmem
        exact hdisj a hmem (List.mem_cons_self a seen)
      · intro x hx
        rcases List.mem_cons.mp hx with rfl | hx2
        · exact hc
        · intro hxs
          exact hdisj x hx2 (List.mem_cons_of_mem a hxs)

/-- First-wins deduplication keeps exactly the identifiers not already
seen. -/
theorem dedupFirstAux_mem (seen l : List String) (x : String) :
    x ∈ dedupFirstAux seen l ↔ x ∈ l ∧ x ∉ seen := by
  induction l generalizing seen with
  | nil => simp [dedupFirstAux]
  | cons a as ih =>
    simp only [dedupFirstAux]
    by_cases hc : a ∈ seen
    · rw [if_pos hc]
      constructor
      · intro hx
        obtain ⟨h1, h2⟩ := (ih seen).mp hx
        exact ⟨List.mem_cons_of_mem a h1, h2⟩
      · rintro ⟨h1, h2⟩
        rcases List.mem_cons.mp h1 with rfl | h3
        · exact absurd hc h2
        · exact (ih seen).mpr ⟨h3, h2⟩
    · rw [if_neg hc]
      constructor
      · intro hx
        rcases List.mem_cons.mp hx with rfl | hx2
        · exact ⟨List.mem_cons_self x as, hc⟩
        · obtain ⟨h1, h2⟩ := (ih (a :: seen)).mp hx2
          exact ⟨List.mem_cons_of_mem a h1, fun hxs => h2 (List.mem_cons_of_mem a hxs)⟩
      · rintro ⟨h1, h2⟩
        rcases List.mem_cons.mp h1 with rfl | h3
        · exact List.mem_cons_self x _
        · by_cases hxa : x = a
          · rw [hxa]
            exact List.mem_cons_self a _
          · refine List.mem_cons_of_mem a ((ih (a :: seen)).mpr ⟨h3, ?_⟩)
            intro hx2
            rcases List.mem_cons.mp hx2 with h4 | h4
            · exact hxa h4
            · exact h2 h4

/-- A successful simple cleanup loop fetches exactly its input ids in
order and produces one pairing per found id, dropping not-found ids. -/
theorem cleanupDistinct_ok {c : Clients} {ids : List String} {ps : List DataPair}
    {tr : List String} (h : cleanupDistinct c ids = .ok (ps, tr)) :
    tr = ids ∧ ps = ids.filterMap (fun id =>
      match c.imdbListItemsGet id with
      | .ok r => some (mkCleanupPair id r.1 r.2)
      | .error _ => none) := by
  induction ids generalizing ps tr with
  | nil =>
    cases h
    exact ⟨rfl, rfl⟩
  | cons id ids ih =>
    simp only [cleanupDistinct] at h
    split at h
    · rename_i e hf
      split at h
      · cases hrec : cleanupDistinct c ids with
        | error e2 => rw [hrec] at h; exact absurd h (by simp [Except.map])
        | ok r =>
          obtain ⟨ps2, tr2⟩ := r
          rw [hrec] at h
          simp only [Except.map, Except.ok.injEq, Prod.mk.injEq] at h
          obtain ⟨h1, h2⟩ := h
          subst h1
          subst h2
          obtain ⟨htr, hps⟩ := ih hrec
          subst htr
          subst hps
          simp [List.filterMap_cons, hf]
      · exact absurd h (by simp)
    · rename_i r hf
      cases hrec : cleanupDistinct c ids with
      | error e2 => rw [hrec] at h; exact absurd h (by simp [Except.map])
      | ok r2 =>
        obtain ⟨ps2, tr2⟩ := r2
        rw [hrec] at h
        simp only [Except.map, Except.ok.injEq, Prod.mk.injEq] at h
        obtain ⟨h1, h2⟩ := h
        subst h1
        subst h2
        obtain ⟨htr, hps⟩ := ih hrec
        subst htr
        subst hps
        simp [List.filterMap_cons, hf]

/-- A fatal (non-404) fetch error on any input id makes the simple
cleanup loop fail. -/
theorem cleanupDistinct_fatal {c : Clients} {ids : List String} {id : String} {e : ApiError}
    (hid : id ∈ ids) (he : c.imdbListItemsGet id = .error e) (hcode : e.StatusCode ≠ 404) :
    ∀ r, cleanupDistinct c ids ≠ .ok r := by
  induction ids with
  | nil => cases hid
  | cons a as ih =>
    intro r hok
    simp only [cleanupDistinct] at hok
    rcases List.mem_cons.mp hid with rfl | hmem
    · split at hok
      · rename_i e2 hf
        rw [he] at hf
        injection hf with hf2
        subst hf2
        split at hok
        · rename_i hb
          exact hcode (by simpa using hb)
        · simp at hok
      · rename_i r2 hf
        rw [he] at hf
        exact Except.noConfusion hf
    · split at hok
      · rename_i e2 hf
        split at hok
        · cases hrec : cleanupDistinct c as with
          | error e3 => rw [hrec] at hok; simp [Except.map] at hok
          | ok r2 => exact ih hmem r2 hrec
        · simp at hok
      · rename_i r2 hf
        cases hrec : cleanupDistinct c as with
        | error e3 => rw [hrec] at hok; simp [Except.map] at hok
        | ok r3 => exact ih hmem r3 hrec

/-- C6: cleanup of explicitly supplied identifiers deduplicates them
before fetching (first occurrence wins, each distinct identifier fetched
at most once), silently drops not-found identifiers, fails on any other
fetch error, and produces exactly one pairing per distinct found
identifier. -/
theorem claim_C6_cleanup_dedup (c : Clients) (ls : List DataPair) :
    cleanupLists c ls = cleanupDistinct c (dedupFirst (ls.map DataPair.ImdbListId))
    ∧ (dedupFirst (ls.map DataPair.ImdbListId)).Nodup
    ∧ (∀ x, x ∈ dedupFirst (ls.map DataPair.ImdbListId) ↔ x ∈ ls.map DataPair.ImdbListId)
    ∧ (∀ ids ps tr, cleanupDistinct c ids = .ok (ps, tr) →
        tr = ids ∧ ps = ids.filterMap (fun id =>
          match c.imdbListItemsGet id with
          | .ok r => some (mkCleanupPair id r.1 r.2)
          | .error _ => none))
    ∧ (∀ ids id e, id ∈ ids → c.imdbListItemsGet id = .error e → e.StatusCode ≠ 404 →
        ∀ r, cleanupDistinct c ids ≠ .ok r) :=
  ⟨cleanupLoop_eq_distinct c [] ls,
    (dedupFirstAux_nodup_disjoint [] _).1,
    fun x => by simp [dedupFirst, dedupFirstAux_mem],
    fun _ _ _ h => cleanupDistinct_ok h,
    fun _ _ _ h1 h2 h3 => cleanupDistinct_fatal h1 h2 h3⟩

/-- Concrete corroboration of C6: the input [A, A, B] hydrates exactly
two pairings, with A fetched once. -/
theorem cleanup_example_input_AAB :
    cleanupLists exClients
        [{ ImdbListId := "A" }, { ImdbListId := "A" }, { ImdbListId := "B" }]
      = .ok ([mkCleanupPair "A" "name" [], mkCleanupPair "B" "name" []], ["A", "B"]) := by
  rfl

/-- C7: the run-configuration inputs are validated for presence before
anything else happens in the syncer's construction; a validation failure
aborts with the complete list of missing required inputs, and only a
fully present configuration lets construction proceed to the seed
pairings. -/
theorem claim_C7_env_validation (env : String → Option String) :
    (∀ m, validateEnvVars env = some m ↔
        (m = requiredEnvVarKeys.filter (fun k => (env k).isNone) ∧ m ≠ []))
    ∧ (∀ k, k ∈ requiredEnvVarKeys → env k = none →
        ∃ m, newSyncerSeed env = .error m ∧ k ∈ m
          ∧ ∀ k2, k2 ∈ requiredEnvVarKeys → env k2 = none → k2 ∈ m)
    ∧ (validateEnvVars env = none →
        newSyncerSeed env = .ok (seedPairs ((env EnvVarKeyListIds).getD ""))) := by
  have hval : ∀ m, validateEnvVars env = some m ↔
      (m = requiredEnvVarKeys.filter (fun k => (env k).isNone) ∧ m ≠ []) := by
    intro m
    simp only [validateEnvVars]
    split
    · rename_i hempty
      constructor
      · intro h
        exact absurd h (by simp)
      · rintro ⟨rfl, hne⟩
        exact absurd (List.isEmpty_iff.mp hempty) hne
    · rename_i hempty
      constructor
      · intro h
        injection h with h2
        refine ⟨h2.symm, ?_⟩
        rw [← h2]
        intro hnil
        rw [hnil] at hempty
        exact hempty rfl
      · rintro ⟨rfl, _⟩
        rfl
  refine ⟨hval, ?_, ?_⟩
  · intro k hk hnone
    have hkmem : k ∈ requiredEnvVarKeys.filter (fun k2 => (env k2).isNone) :=
      List.mem_filter.mpr ⟨hk, by simp [hnone]⟩
    have hne : requiredEnvVarKeys.filter (fun k2 => (env k2).isNone) ≠ [] :=
      List.ne_nil_of_mem hkmem
    have hsome : validateEnvVars env
        = some (requiredEnvVarKeys.filter (fun k2 => (env k2).isNone)) :=
      (hval _).mpr ⟨rfl, hne⟩
    refine ⟨_, ?_, hkmem, ?_⟩
    · simp [newSyncerSeed, hsome]
    · intro k2 hk2 hn2
      exact List.mem_filter.mpr ⟨hk2, by simp [hn2]⟩
  · intro hnone
    simp [newSyncerSeed, hnone]

/-- Concrete corroboration of C7: an environment missing the list-ids
and username inputs aborts naming both at once. -/
theorem env_example_missing_two :
    newSyncerSeed exEnvMissing = .error ["IMDB_LIST_IDS", "TRAKT_USERNAME"] := by
  rfl

/-- Mirror hydration of one pairing changes only its mirror collection:
the watchlist flag and the display name survive. -/
theorem hydratePairing_preserves {c : Clients} {p p2 : DataPair} {cs : List Call}
    (h : hydratePairing c p = .ok (p2, cs)) :
    p2.IsWatchlist = p.IsWatchlist ∧ p2.ImdbListName = p.ImdbListName := by
  simp only [hydratePairing] at h
  split at h
  · split at h
    · exact absurd h (by simp)
    · simp only [Except.ok.injEq, Prod.mk.injEq] at h
      obtain ⟨h1, _⟩ := h
      subst h1
      exact ⟨rfl, rfl⟩
  · split at h
    · simp only [Except.ok.injEq, Prod.mk.injEq] at h
      obtain ⟨h1, _⟩ := h
      subst h1
      exact ⟨rfl, rfl⟩
    · split at h
      · split at h
        · exact absurd h (by simp)
        · simp only [Except.ok.injEq, Prod.mk.injEq] at h
          obtain ⟨h1, _⟩ := h
          subst h1
          exact ⟨rfl, rfl⟩
      · exact absurd h (by simp)

/-- The hydration loop preserves, pairing by pairing, the watchlist flag
and display name of its input. -/
theorem hydratePairings_shape {c : Clients} {l l2 : List DataPair} {cs : List Call}
    (h : hydratePairings c l = .ok (l2, cs)) :
    l2.map (fun q => (q.IsWatchlist, q.ImdbListName))
      = l.map (fun q => (q.IsWatchlist, q.ImdbListName)) := by
  induction l generalizing l2 cs with
  | nil =>
    cases h
    rfl
  | cons p ps ih =>
    simp only [hydratePairings] at h
    split at h
    · exact absurd h (by simp)
    · rename_i p2 cs2 hp
      cases hrec : hydratePairings c ps with
      | error e => rw [hrec] at h; exact absurd h (by simp [Except.map])
      | ok r =>
        obtain ⟨l3, cs3⟩ := r
        rw [hrec] at h
        simp only [Except.map, Except.ok.injEq, Prod.mk.injEq] at h
        obtain ⟨h1, _⟩ := h
        subst h1
        obtain ⟨hw, hn⟩ := hydratePairing_preserves hp
        simp [List.map_cons, hw, hn, ih hrec]

/-- Every pairing produced by cleanup carries a cleared watchlist flag. -/
theorem cleanupLists_not_watchlist {c : Clients} {ls ps : List DataPair} {tr : List String}
    (h : cleanupLists c ls = .ok (ps, tr)) :
    ∀ q ∈ ps, q.IsWatchlist = false := by
  rw [cleanupLists, cleanupLoop_eq_distinct] at h
  obtain ⟨_, hps⟩ := cleanupDistinct_ok h
  intro q hq
  rw [hps] at hq
  obtain ⟨id, _, hsome⟩ := List.mem_filterMap.mp hq
  split at hsome
  · injection hsome with h2
    rw [← h2]
    rfl
  · exact absurd hsome (by simp)

/-- The last element of a mapped list. -/
theorem getLast_map {α β : Type} (f : α → β) (l : List α) :
    (l.map f).getLast? = l.getLast?.map f := by
  induction l with
  | nil => rfl
  | cons a as ih =>
    rw [List.map_cons, List.getLast?_cons, List.getLast?_cons, ih]
    cases as.getLast? <;> rfl

/-- A successfully hydrated run's pairings look, flag- and name-wise,
like a watchlist-free prefix followed by the watchlist pairing; the
prefix comes from cleanup or from discovery according to the seeds. -/
theorem hydrate_shape {c : Clients} {seeds : List DataPair} {st : UserState}
    {calls : List Call} (h : hydrate c seeds = .ok (st, calls)) :
    ∃ lists0 wlid wlitems,
      st.lists.map (fun q => (q.IsWatchlist, q.ImdbListName))
        = (lists0 ++ [watchlistPair wlid wlitems]).map (fun q => (q.IsWatchlist, q.ImdbListName))
      ∧ ((seeds.length ≠ 0 ∧ ∃ tr, cleanupLists c seeds = .ok (lists0, tr))
          ∨ (seeds.length = 0 ∧ c.imdbListsScrape = .ok lists0)) := by
  simp only [hydrate] at h
  split at h
  · exact absurd h (by simp)
  · rename_i lists0 h0
    split at h
    · exact absurd h (by simp)
    · rename_i wl hwl
      split at h
      · exact absurd h (by simp)
      · rename_i hyd hhyd
        split at h
        · exact absurd h (by simp)
        · rename_i ir hir
          split at h
          · exact absurd h (by simp)
          · rename_i tr2 htr2
            simp only [Except.ok.injEq, Prod.mk.injEq] at h
            obtain ⟨h1, _⟩ := h
            subst h1
            refine ⟨lists0, wl.1, wl.2, ?_, ?_⟩
            · obtain ⟨l3, cs3⟩ := hyd
              exact hydratePairings_shape hhyd
            · split at h0
              · rename_i hlen
                cases hcl : cleanupLists c seeds with
                | error e => rw [hcl] at h0; exact absurd h0 (by simp [Except.map])
                | ok r =>
                  obtain ⟨ps2, tr3⟩ := r
                  rw [hcl] at h0
                  simp only [Except.map, Except.ok.injEq] at h0
                  subst h0
                  exact Or.inl ⟨by simpa using hlen, tr3, rfl⟩
              · rename_i hlen
                refine Or.inr ⟨?_, h0⟩
                simpa using hlen

/-- C8: hydration always appends the watchlist pairing last, marked as
the watchlist, and a hydrated run holds exactly one watchlist pairing
(in particular at most one), provided discovery yields only non-watchlist
pairings, as the source client contract prescribes. -/
theorem claim_C8_watchlist_last
    (c : Clients) (seeds : List DataPair) (st : UserState) (calls : List Call)
    (hscrape : ∀ qs q, c.imdbListsScrape = .ok qs → q ∈ qs → q.IsWatchlist = false)
    (hok : hydrate c seeds = .ok (st, calls)) :
    (∃ q, st.lists.getLast? = some q ∧ q.IsWatchlist = true ∧ q.ImdbListName = "watchlist")
    ∧ st.lists.countP (fun q => q.IsWatchlist) = 1 := by
  obtain ⟨lists0, wlid, wlitems, hshape, hsrc⟩ := hydrate_shape hok
  have h0false : ∀ q ∈ lists0, q.IsWatchlist = false := by
    rcases hsrc with ⟨_, tr, hcl⟩ | ⟨_, hsc⟩
    · exact cleanupLists_not_watchlist hcl
    · exact fun q hq => hscrape lists0 q hsc hq
  constructor
  · have hlast : (st.lists.map (fun q => (q.IsWatchlist, q.ImdbListName))).getLast?
        = some (true, "watchlist") := by
      rw [hshape, List.map_append]
      exact getLast_append_single _ _
    rw [getLast_map] at hlast
    cases hql : st.lists.getLast? with
    | none =>
      rw [hql] at hlast
      simp at hlast
    | some q =>
      rw [hql] at hlast
      simp only [Option.map_some', Option.some.injEq, Prod.mk.injEq] at hlast
      exact ⟨q, rfl, hlast.1, hlast.2⟩
  · have hcnt : st.lists.countP (fun q => q.IsWatchlist)
        = (st.lists.map (fun q => (q.IsWatchlist, q.ImdbListName))).countP
            (fun pr => pr.1) := by
      rw [List.countP_map]
      rfl
    rw [hcnt, hshape, List.map_append, List.countP_append]
    have hz : (lists0.map (fun q => (q.IsWatchlist, q.ImdbListName))).countP
        (fun pr => pr.1) = 0 := by
      rw [List.countP_map]
      rw [List.countP_eq_zero]
      intro q hq
      simp [h0false q hq]
    rw [hz]
    rfl

/-- C8 witness: hydrating from an empty seed list against the fixture
clients yields exactly the watchlist pairing, appended last and marked. -/
theorem claim_C8_watchlist_last_witness :
    (∃ q, exStateWl.lists.getLast? = some q ∧ q.IsWatchlist = true
        ∧ q.ImdbListName = "watchlist")
    ∧ exStateWl.lists.countP (fun q => q.IsWatchlist) = 1 :=
  claim_C8_watchlist_last exClients [] exStateWl []
    (by
      intro qs q hqs hq
      injection hqs with h2
      rw [← h2] at hq
      cases hq)
    (by rfl)

/-- Comma splitting never yields an empty chunk list. -/
theorem splitComma_ne_nil (l : List Char) : splitComma l ≠ [] := by
  cases l with
  | nil => simp [splitComma]
  | cons c cs =>
    simp only [splitComma]
    split
    · exact List.cons_ne_nil _ _
    · split
      · exact List.cons_ne_nil _ _
      · exact List.cons_ne_nil _ _

/-- Comma splitting loses no characters: rejoining the chunks with
commas restores the input. -/
theorem joinComma_splitComma (l : List Char) : joinComma (splitComma l) = l := by
  induction l with
  | nil => rfl
  | cons c cs ih =>
    simp only [splitComma]
    split
    · rename_i hc
      cases hsp : splitComma cs with
      | nil => exact absurd hsp (splitComma_ne_nil cs)
      | cons r rs =>
        have hcc : c = ',' := by simpa using hc
        rw [hcc]
        calc joinComma ([] :: r :: rs) = ',' :: joinComma (r :: rs) := rfl
          _ = ',' :: cs := by rw [← hsp, ih]
    · cases hsp : splitComma cs with
      | nil => exact absurd hsp (splitComma_ne_nil cs)
      | cons r rs =>
        cases rs with
        | nil =>
          have hr : r = cs := by
            rw [hsp] at ih
            simpa [joinComma] using ih
          simp [joinComma, hr]
        | cons r2 rs2 =>
          have hj : joinComma (r :: r2 :: rs2) = cs := by
            rw [hsp] at ih
            exact ih
          calc joinComma ((c :: r) :: r2 :: rs2)
              = c :: (r ++ ',' :: joinComma (r2 :: rs2)) := rfl
            _ = c :: joinComma (r :: r2 :: rs2) := rfl
            _ = c :: cs := by rw [hj]

/-- C9: an empty or sentinel "all" list-ids input seeds no explicit
pairing and hydration then uses full discovery; any other input is split
on commas with every space removed from each identifier, so no seeded
identifier contains a space and no character besides separators is
lost. -/
theorem claim_C9_list_id_parsing :
    (parseListIds "" = [] ∧ parseListIds "all" = [])
    ∧ (∀ s : String, ¬s = "" → ¬s = "all" →
        parseListIds s = (splitComma s.data).map (fun cs => String.mk (removeSpaces cs)))
    ∧ (∀ l : List Char, joinComma (splitComma l) = l)
    ∧ (∀ s id, id ∈ parseListIds s → ∀ ch ∈ id.data, ch ≠ ' ')
    ∧ (∀ (c : Clients) (e : ApiError), c.imdbListsScrape = .error e →
        hydrate c (seedPairs "") = .error e ∧ hydrate c (seedPairs "all") = .error e) := by
  refine ⟨⟨rfl, rfl⟩, ?_, joinComma_splitComma, ?_, ?_⟩
  · intro s h1 h2
    rw [parseListIds, if_neg]
    simp [h1, h2]
  · intro s id hid
    rw [parseListIds] at hid
    split at hid
    · cases hid
    · obtain ⟨cs, _, rfl⟩ := List.mem_map.mp hid
      intro ch hch heq
      obtain ⟨_, hne⟩ := List.mem_filter.mp hch
      rw [heq] at hne
      simp at hne
  · intro c e he
    constructor
    · show hydrate c [] = .error e
      rw [hydrate]
      rw [if_neg (by simp)]
      rw [he]
    · show hydrate c [] = .error e
      rw [hydrate]
      rw [if_neg (by simp)]
      rw [he]

/-- Concrete corroboration of C9: the input "ls1, ls2" seeds the two
identifiers with their spaces stripped. -/
theorem parse_example_two_ids :
    seedPairs "ls1, ls2" = [{ ImdbListId := "ls1" }, { ImdbListId := "ls2" }]
    ∧ newSyncerSeed exEnvFull = .ok [{ ImdbListId := "ls1" }, { ImdbListId := "ls2" }] := by
  constructor <;> rfl

/-- Whether a pairing named after the given name exists. -/
theorem contains_iff {dps : List DataPair} {n : String} :
    contains dps n = true ↔ ∃ dp ∈ dps, dp.ImdbListName = n := by
  simp [contains, List.any_eq_true, beq_iff_eq]

/-- C10: after any successful hydration, some pairing bears the literal
display name watchlist, so orphan cleanup's name matching spares every
mirror list named watchlist: such a list never passes the deletion
filter and, with distinct slugs, no delete call for it is issued. -/
theorem claim_C10_watchlist_never_deleted
    (c : Clients) (seeds : List DataPair) (st : UserState) (calls : List Call)
    (traktLists : List TraktListRec)
    (hok : hydrate c seeds = .ok (st, calls)) :
    contains st.lists "watchlist" = true
    ∧ (∀ tl ∈ traktLists, tl.Name = "watchlist" →
        tl ∉ traktLists.filter (fun l2 => !(contains st.lists l2.Name)))
    ∧ (∀ tl ∈ traktLists, tl.Name = "watchlist" →
        (traktLists.map (fun l2 => l2.Ids.Slug)).Nodup →
        Call.listRemove tl.Ids.Slug ∉ orphanDeleteCalls st.lists traktLists) := by
  obtain ⟨lists0, wlid, wlitems, hshape, _⟩ := hydrate_shape hok
  have hw : contains st.lists "watchlist" = true := by
    have hmem : ((watchlistPair wlid wlitems).IsWatchlist,
        (watchlistPair wlid wlitems).ImdbListName)
        ∈ st.lists.map (fun q => (q.IsWatchlist, q.ImdbListName)) := by
      rw [hshape]
      exact List.mem_map.mpr ⟨watchlistPair wlid wlitems,
        List.mem_append.mpr (Or.inr (List.mem_cons_self _ _)), rfl⟩
    obtain ⟨q, hq, hqe⟩ := List.mem_map.mp hmem
    have hname : q.ImdbListName = "watchlist" := congrArg Prod.snd hqe
    exact contains_iff.mpr ⟨q, hq, hname⟩
  refine ⟨hw, ?_, ?_⟩
  · intro tl _ hname hmem
    obtain ⟨_, hpred⟩ := List.mem_filter.mp hmem
    rw [hname, hw] at hpred
    exact absurd hpred (by simp)
  · intro tl htl hname hslug
    exact matched_not_deleted hslug htl (hname ▸ hw)

/-- C10 witness: after the fixture hydration, the mirror list named
watchlist is not deleted. -/
theorem claim_C10_watchlist_never_deleted_witness :
    contains exStateWl.lists "watchlist" = true
    ∧ (∀ tl ∈ [exTlWl], tl.Name = "watchlist" →
        tl ∉ [exTlWl].filter (fun l2 => !(contains exStateWl.lists l2.Name)))
    ∧ (∀ tl ∈ [exTlWl], tl.Name = "watchlist" →
        ([exTlWl].map (fun l2 => l2.Ids.Slug)).Nodup →
        Call.listRemove tl.Ids.Slug ∉ orphanDeleteCalls exStateWl.lists [exTlWl]) :=
  claim_C10_watchlist_never_deleted exClients [] exStateWl [] [exTlWl] (by rfl)

end ImdbTraktSync
